import Mathlib

/-
  Verification of the custom-autograd ReLU example
  (src/pytorch-examples/00-warm-up/2 autograd/2 two_layer_net_custom_autograd_function.py).

  Tensors are modelled over the rationals.  Elementwise operators (the custom
  ReLU forward/backward) are modelled on flat lists of rationals; the
  two-layer network and the training loop are modelled on matrices given as
  lists of rows.
-/

/-! ## The custom autograd operator `MyRelu` (elementwise model) -/

-- `ctx`: the context object of the autograd engine; `ctx.save_for_backward(input)`
-- stores a tuple of tensors that `backward` later reads via `ctx.saved_tensors`.
structure Ctx where
  saved_tensors : List (List ℚ)

-- `MyRelu.forward`: `ctx.save_for_backward(input); return input.clamp(min=0)`.
-- Returns the updated context together with the output tensor.
def MyRelu.forwardImpl (input : List ℚ) : Ctx × List ℚ :=
  ({ saved_tensors := [input] }, input.map (fun v => max v 0))

-- The output tensor alone (the value the caller of `MyRelu.apply` sees).
def MyRelu.forward (input : List ℚ) : List ℚ :=
  (MyRelu.forwardImpl input).2

-- `MyRelu.backward` as a function of the saved input and `grad_output`:
--   grad_input = grad_output.clone(); grad_input[input < 0] = 0; return grad_input
def MyRelu.backward (input grad_output : List ℚ) : List ℚ :=
  List.zipWith (fun xi gi => if xi < 0 then 0 else gi) input grad_output

-- `.clone()`: a fresh buffer holding the same values.
def cloneT (t : List ℚ) : List ℚ := t.map id

-- `MyRelu.backward` with the buffer discipline made explicit: the call reads
-- `input, = ctx.saved_tensors`, clones `grad_output`, masks the clone in place,
-- and returns it.  The second component is the `grad_output` buffer as it
-- stands after the call (the code never writes to it).
def MyRelu.backwardCall (ctx : Ctx) (grad_output : List ℚ) : List ℚ × List ℚ :=
  let input := ctx.saved_tensors.headD []
  let grad_input := cloneT grad_output
  (List.zipWith (fun xi gi => if xi < 0 then 0 else gi) input grad_input, grad_output)

/-! ## Theorems about the elementwise operator -/

/-- Claim C2: for every input tensor `x` and index `i`, `Forward(x)[i] = x[i]`
if `x[i] ≥ 0` and `0` otherwise; `Forward` is total (accepts any list, no
error condition) and preserves the length of its input. -/
theorem MyRelu.forward_spec (x : List ℚ) (i : Nat) (h : i < x.length) :
    (MyRelu.forward x).length = x.length ∧
    (MyRelu.forward x).getD i 0 = if 0 ≤ x.getD i 0 then x.getD i 0 else 0 := by
  constructor
  · simp [MyRelu.forward, MyRelu.forwardImpl]
  · induction x generalizing i with
    | nil => cases h
    | cons a t ih =>
      cases i with
      | zero =>
        simp only [MyRelu.forward, MyRelu.forwardImpl, List.map_cons, List.getD_cons_zero]
        rcases le_total a 0 with ha | ha
        · rcases eq_or_lt_of_le ha with rfl | ha
          · simp
          · rw [max_eq_right ha.le, if_neg (not_le.mpr ha)]
        · rw [max_eq_left ha, if_pos ha]
      | succ j =>
        have hj : j < t.length := Nat.lt_of_succ_lt_succ h
        have := ih j hj
        simpa [MyRelu.forward, MyRelu.forwardImpl] using this

/-- Witness for C2 at `x = [3, -2, 0]`, `i = 1`. -/
theorem MyRelu.forward_spec_witness :
    (1 < ([(3 : ℚ), -2, 0]).length) ∧
    ((MyRelu.forward [(3 : ℚ), -2, 0]).length = ([(3 : ℚ), -2, 0]).length ∧
     (MyRelu.forward [(3 : ℚ), -2, 0]).getD 1 0 =
       if 0 ≤ ([(3 : ℚ), -2, 0]).getD 1 0 then ([(3 : ℚ), -2, 0]).getD 1 0 else 0) :=
  ⟨by decide, MyRelu.forward_spec [(3 : ℚ), -2, 0] 1 (by decide)⟩

/-- Claim C1, as stated, is false on the code: it asserts
`Backward(g)[i] = g[i]` when the stored `x[i] > 0` and `0` otherwise — in
particular `0` at `x[i] = 0` — but the code zeroes only positions with
`x[i] < 0` (`grad_input[input < 0] = 0`), so at `x[i] = 0` the gradient
passes through.  Refuted at `x = [0]`, `g = [5]`. -/
theorem MyRelu.backward_claim_false :
    ¬ (∀ (x g : List ℚ), x.length = g.length →
        ∀ i, i < x.length →
          (MyRelu.backward x g).getD i 0 =
            if 0 < x.getD i 0 then g.getD i 0 else 0) := by
  intro hcl
  have h5 := hcl [0] [5] rfl 0 (by decide)
  rw [show MyRelu.backward [0] [5] = [5] by rfl] at h5
  norm_num at h5

/-- Claim C1 (amended): for every stored forward input `x` and gradient `g` of
matching shape, `Backward(g)[i] = g[i]` if `x[i] ≥ 0` and `0` otherwise: the
mask `grad_input[input < 0] = 0` zeroes exactly the strictly negative
positions, and at `x[i] = 0` the incoming gradient passes through. -/
theorem MyRelu.backward_spec (x g : List ℚ) (hlen : x.length = g.length)
    (i : Nat) (h : i < x.length) :
    (MyRelu.backward x g).length = x.length ∧
    (MyRelu.backward x g).getD i 0 =
      if 0 ≤ x.getD i 0 then g.getD i 0 else 0 := by
  constructor
  · simp [MyRelu.backward, hlen]
  · induction x generalizing g i with
    | nil => cases h
    | cons a t ih =>
      cases g with
      | nil => cases hlen
      | cons b u =>
        cases i with
        | zero =>
          simp only [MyRelu.backward, List.zipWith_cons_cons, List.getD_cons_zero]
          rcases lt_or_le a 0 with ha | ha
          · rw [if_pos ha, if_neg (not_le.mpr ha)]
          · rw [if_neg (not_lt.mpr ha), if_pos ha]
        | succ j =>
          have hj : j < t.length := Nat.lt_of_succ_lt_succ h
          have hlu : t.length = u.length := by simpa using hlen
          have := ih u hlu j hj
          simpa [MyRelu.backward] using this

/-- Witness for the amended C1 at `x = [0, -1, 2]`, `g = [5, 6, 7]`, `i = 0`. -/
theorem MyRelu.backward_spec_witness :
    (([(0 : ℚ), -1, 2]).length = ([(5 : ℚ), 6, 7]).length ∧
     0 < ([(0 : ℚ), -1, 2]).length) ∧
    ((MyRelu.backward [(0 : ℚ), -1, 2] [(5 : ℚ), 6, 7]).length =
        ([(0 : ℚ), -1, 2]).length ∧
     (MyRelu.backward [(0 : ℚ), -1, 2] [(5 : ℚ), 6, 7]).getD 0 0 =
       if 0 ≤ ([(0 : ℚ), -1, 2]).getD 0 0 then ([(5 : ℚ), 6, 7]).getD 0 0 else 0) :=
  ⟨⟨by decide, by decide⟩,
   MyRelu.backward_spec [(0 : ℚ), -1, 2] [(5 : ℚ), 6, 7] (by decide) 0 (by decide)⟩

/-- Claim C6: `Forward` is deterministic — two invocations on the same input
tensor return identical output tensors, whatever context object each call is
handed. -/
theorem MyRelu.forward_deterministic (x : List ℚ) :
    (MyRelu.forwardImpl x).2 = (MyRelu.forwardImpl x).2 ∧
    MyRelu.forward x = MyRelu.forward x := ⟨rfl, rfl⟩

/-- Claim C10: `Backward` never mutates its `grad_output` argument: the
`grad_output` buffer holds the same values after the call as before it, and
the returned `grad_input` is the mask applied to a fresh clone of
`grad_output`. -/
theorem MyRelu.backward_no_mutation (ctx : Ctx) (g : List ℚ) :
    (MyRelu.backwardCall ctx g).2 = g ∧
    (MyRelu.backwardCall ctx g).1 =
      MyRelu.backward (ctx.saved_tensors.headD []) (cloneT g) := ⟨rfl, rfl⟩

/-! ## Matrix model of the two-layer network -/

-- A tensor of shape (m, n): a list of m rows, each a list of n rationals.
abbrev Mat := List (List ℚ)

def HasShape (A : Mat) (m n : Nat) : Prop :=
  A.length = m ∧ ∀ r ∈ A, r.length = n

instance (A : Mat) (m n : Nat) : Decidable (HasShape A m n) := by
  unfold HasShape; infer_instance

-- Column j of a matrix (rows shorter than j+1 contribute the default 0).
def colOf (B : Mat) (j : Nat) : List ℚ := B.map (fun r => r.getD j 0)

def dotProd (u v : List ℚ) : ℚ := (List.zipWith (· * ·) u v).sum

-- `x.mm(w)`: matrix product.
def mm (A B : Mat) : Mat :=
  A.map (fun row => (List.range (B.headD []).length).map (fun j => dotProd row (colOf B j)))

-- Elementwise combination of two matrices of the same shape.
def map2 (f : ℚ → ℚ → ℚ) (A B : Mat) : Mat := List.zipWith (List.zipWith f) A B

def matSub (A B : Mat) : Mat := map2 (fun a b => a - b) A B
def matAdd (A B : Mat) : Mat := map2 (fun a b => a + b) A B
def matScale (c : ℚ) (A : Mat) : Mat := A.map (List.map (fun v => c * v))

-- `relu(h)` applied to a matrix (elementwise clamp, as in `MyRelu.forward`).
def reluM (A : Mat) : Mat := A.map (List.map (fun v => max v 0))

-- `MyRelu.backward` lifted to matrices: mask G where X is strictly negative.
def reluMaskM (X G : Mat) : Mat := map2 (fun xi gi => if xi < 0 then 0 else gi) X G

-- `(y_pred - y).pow(2).sum()`: the scalar squared-error loss.
def sqDiffRow (p y : List ℚ) : ℚ := (List.zipWith (fun a b => (a - b) ^ 2) p y).sum
def lossFn (P Y : Mat) : ℚ := (List.zipWith sqDiffRow P Y).sum

-- `y_pred = relu(x.mm(w1)).mm(w2)`.
def predictNet (x w1 w2 : Mat) : Mat := mm (reluM (mm x w1)) w2

/-! ### Shape lemmas -/

theorem mem_zipWith {α β γ : Type} (f : α → β → γ) :
    ∀ {l1 : List α} {l2 : List β} {c : γ}, c ∈ List.zipWith f l1 l2 →
      ∃ a ∈ l1, ∃ b ∈ l2, c = f a b := by
  intro l1
  induction l1 with
  | nil => intro l2 c hc; simp [List.zipWith] at hc
  | cons a t ih =>
    intro l2 c hc
    cases l2 with
    | nil => simp [List.zipWith] at hc
    | cons b u =>
      rcases List.mem_cons.mp hc with h | h
      · exact ⟨a, List.mem_cons_self .., b, List.mem_cons_self .., h⟩
      · rcases ih h with ⟨a1, ha1, b1, hb1, hc1⟩
        exact ⟨a1, List.mem_cons_of_mem _ ha1, b1, List.mem_cons_of_mem _ hb1, hc1⟩

theorem headD_length_of_shape {B : Mat} {k n : Nat}
    (hB : HasShape B k n) (hk : 0 < k) : (B.headD []).length = n := by
  rcases hB with ⟨hlen, hrows⟩
  cases B with
  | nil => simp at hlen; omega
  | cons r t => exact hrows r (List.mem_cons_self ..)

theorem mm_shape {A B : Mat} {m k n : Nat}
    (hA : HasShape A m k) (hB : HasShape B k n) (hk : 0 < k) :
    HasShape (mm A B) m n := by
  refine ⟨by simp [mm, hA.1], ?_⟩
  intro r hr
  simp only [mm, List.mem_map] at hr
  rcases hr with ⟨row, _, rfl⟩
  rw [List.length_map, List.length_range]
  exact headD_length_of_shape hB hk

theorem mapRows_shape {A : Mat} {m n : Nat} (g : ℚ → ℚ)
    (hA : HasShape A m n) : HasShape (A.map (List.map g)) m n := by
  refine ⟨by simp [hA.1], ?_⟩
  intro r hr
  simp only [List.mem_map] at hr
  rcases hr with ⟨row, hrow, rfl⟩
  simp [hA.2 row hrow]

theorem reluM_shape {A : Mat} {m n : Nat} (hA : HasShape A m n) :
    HasShape (reluM A) m n := mapRows_shape _ hA

theorem matScale_shape {A : Mat} {m n : Nat} (c : ℚ) (hA : HasShape A m n) :
    HasShape (matScale c A) m n := mapRows_shape _ hA

theorem map2_shape {A B : Mat} {m n : Nat} (f : ℚ → ℚ → ℚ)
    (hA : HasShape A m n) (hB : HasShape B m n) :
    HasShape (map2 f A B) m n := by
  refine ⟨by simp [map2, hA.1, hB.1], ?_⟩
  intro r hr
  rcases mem_zipWith _ hr with ⟨a, ha, b, hb, rfl⟩
  simp [hA.2 a ha, hB.2 b hb]

/-! ### Loss non-negativity -/

theorem sqDiffRow_nonneg (p y : List ℚ) : 0 ≤ sqDiffRow p y := by
  apply List.sum_nonneg
  intro v hv
  rcases mem_zipWith _ hv with ⟨a, _, b, _, rfl⟩
  positivity

theorem lossFn_nonneg (P Y : Mat) : 0 ≤ lossFn P Y := by
  apply List.sum_nonneg
  intro v hv
  rcases mem_zipWith _ hv with ⟨p, _, y, _, rfl⟩
  exact sqDiffRow_nonneg p y

/-- Claim C5: with input batch of shape (64, 1000) and weights of shape
(1000, 100) and (100, 10), the forward pass `relu(x.mm(w1)).mm(w2)` has shape
(64, 10), and the loss `(y_pred - y).pow(2).sum()` is a single scalar that is
non-negative. -/
theorem predictNet_shape_loss (x w1 w2 y : Mat)
    (hx : HasShape x 64 1000) (h1 : HasShape w1 1000 100) (h2 : HasShape w2 100 10) :
    HasShape (predictNet x w1 w2) 64 10 ∧ 0 ≤ lossFn (predictNet x w1 w2) y := by
  constructor
  · exact mm_shape (reluM_shape (mm_shape hx h1 (by norm_num))) h2 (by norm_num)
  · exact lossFn_nonneg _ _

theorem replicate_shape (m n : Nat) (v : ℚ) :
    HasShape (List.replicate m (List.replicate n v)) m n := by
  refine ⟨List.length_replicate .., ?_⟩
  intro r hr
  rw [List.eq_of_mem_replicate hr]
  exact List.length_replicate ..

/-- Witness for C5 on concrete zero matrices of the stated shapes. -/
theorem predictNet_shape_loss_witness :
    (HasShape (List.replicate 64 (List.replicate 1000 (0 : ℚ))) 64 1000 ∧
     HasShape (List.replicate 1000 (List.replicate 100 (0 : ℚ))) 1000 100 ∧
     HasShape (List.replicate 100 (List.replicate 10 (0 : ℚ))) 100 10) ∧
    (HasShape
        (predictNet (List.replicate 64 (List.replicate 1000 (0 : ℚ)))
          (List.replicate 1000 (List.replicate 100 (0 : ℚ)))
          (List.replicate 100 (List.replicate 10 (0 : ℚ)))) 64 10 ∧
     0 ≤ lossFn
        (predictNet (List.replicate 64 (List.replicate 1000 (0 : ℚ)))
          (List.replicate 1000 (List.replicate 100 (0 : ℚ)))
          (List.replicate 100 (List.replicate 10 (0 : ℚ))))
        (List.replicate 64 (List.replicate 10 (0 : ℚ)))) := by
  have hx := replicate_shape 64 1000 (0 : ℚ)
  have h1 := replicate_shape 1000 100 (0 : ℚ)
  have h2 := replicate_shape 100 10 (0 : ℚ)
  exact ⟨⟨hx, h1, h2⟩, predictNet_shape_loss _ _ _ _ hx h1 h2⟩

/-! ## The training loop -/

-- `w.grad.zero_()`: a zero-filled tensor with the shape of `A`.
def zerosLike (A : Mat) : Mat := A.map (List.map (fun _ => (0 : ℚ)))

-- Transpose (used by the autograd engine when it differentiates `mm`).
def transposeM (A : Mat) : Mat :=
  (List.range (A.headD []).length).map (fun j => colOf A j)

-- `learning_rate = 1e-6`.
def learning_rate : ℚ := 1 / 1000000

-- The state at the top of a loop iteration: the fixed batches `x`, `y`, the
-- weights `w1`, `w2`, and their gradient accumulators (`w1.grad`, `w2.grad`).
structure TrainState where
  x : Mat
  y : Mat
  w1 : Mat
  w2 : Mat
  w1grad : Mat
  w2grad : Mat

-- The gradients of `loss = (y_pred - y).pow(2).sum()` with respect to `w1`
-- and `w2` that `loss.backward()` produces by reverse-mode differentiation
-- of `y_pred = relu(x.mm(w1)).mm(w2)`; `MyRelu.backward` supplies the mask
-- at the ReLU node (zero exactly where the saved input is negative).
def backwardGrads (s : TrainState) : Mat × Mat :=
  let h := mm s.x s.w1
  let hRelu := reluM h
  let yPred := mm hRelu s.w2
  let gradYPred := matScale 2 (matSub yPred s.y)
  let gradW2 := mm (transposeM hRelu) gradYPred
  let gradHRelu := mm gradYPred (transposeM s.w2)
  let gradH := reluMaskM h gradHRelu
  let gradW1 := mm (transposeM s.x) gradH
  (gradW1, gradW2)

-- One iteration of `for t in range(500)`:
--   loss.backward()            -- accumulates into w1.grad / w2.grad
--   with torch.no_grad():
--     w1 -= learning_rate * w1.grad ; w2 -= learning_rate * w2.grad
--     w1.grad.zero_() ; w2.grad.zero_()
def step (s : TrainState) : TrainState :=
  let g1 := matAdd s.w1grad (backwardGrads s).1
  let g2 := matAdd s.w2grad (backwardGrads s).2
  { x := s.x, y := s.y,
    w1 := matSub s.w1 (matScale learning_rate g1),
    w2 := matSub s.w2 (matScale learning_rate g2),
    w1grad := zerosLike g1,
    w2grad := zerosLike g2 }

-- `run n s`: the state after `n` loop iterations.
def run : Nat → TrainState → TrainState
  | 0, s => s
  | Nat.succ n, s => run n (step s)

-- The scalar loss printed in an iteration.
def lossAt (s : TrainState) : ℚ := lossFn (predictNet s.x s.w1 s.w2) s.y

-- The list of losses printed by `n` iterations, one per iteration.
def trainTrace : Nat → TrainState → List ℚ
  | 0, _ => []
  | Nat.succ n, s => lossAt s :: trainTrace n (step s)

-- `for t in range(500)`: the whole loop.
def trainLoop (s : TrainState) : TrainState := run 500 s
def trainLosses (s : TrainState) : List ℚ := trainTrace 500 s

/-! ### Entry-level and shape lemmas for the loop -/

-- Entry (i, j) of a matrix, with default 0.
def entry (A : Mat) (i j : Nat) : ℚ := (A.getD i []).getD j 0

theorem zipWith_getD_of_lt {α β γ : Type} (f : α → β → γ) (da : α) (db : β) (dc : γ) :
    ∀ (l1 : List α) (l2 : List β) (i : Nat), i < l1.length → i < l2.length →
      (List.zipWith f l1 l2).getD i dc = f (l1.getD i da) (l2.getD i db) := by
  intro l1
  induction l1 with
  | nil => intro l2 i h1 h2; cases h1
  | cons a t ih =>
    intro l2 i h1 h2
    cases l2 with
    | nil => cases h2
    | cons b u =>
      cases i with
      | zero => rfl
      | succ j =>
        have hj1 : j < t.length := Nat.lt_of_succ_lt_succ h1
        have hj2 : j < u.length := Nat.lt_of_succ_lt_succ h2
        simpa using ih u j hj1 hj2

theorem map_getD_of_lt {α β : Type} (f : α → β) (da : α) (db : β) :
    ∀ (l : List α) (i : Nat), i < l.length →
      (l.map f).getD i db = f (l.getD i da) := by
  intro l
  induction l with
  | nil => intro i h; cases h
  | cons a t ih =>
    intro i h
    cases i with
    | zero => rfl
    | succ j =>
      have hj : j < t.length := Nat.lt_of_succ_lt_succ h
      simpa using ih j hj

theorem row_length_of_shape {A : Mat} {m n i : Nat}
    (hA : HasShape A m n) (hi : i < m) : (A.getD i []).length = n := by
  have hiA : i < A.length := by rw [hA.1]; exact hi
  rw [List.getD_eq_getElem A [] hiA]
  exact hA.2 _ (List.getElem_mem hiA)

theorem entry_map2 (f : ℚ → ℚ → ℚ) {A B : Mat} {m n i j : Nat}
    (hA : HasShape A m n) (hB : HasShape B m n) (hi : i < m) (hj : j < n) :
    entry (map2 f A B) i j = f (entry A i j) (entry B i j) := by
  have hiA : i < A.length := by rw [hA.1]; exact hi
  have hiB : i < B.length := by rw [hB.1]; exact hi
  have hrow : (map2 f A B).getD i [] =
      List.zipWith f (A.getD i []) (B.getD i []) :=
    zipWith_getD_of_lt (List.zipWith f) [] [] [] A B i hiA hiB
  have hjA : j < (A.getD i []).length := by rw [row_length_of_shape hA hi]; exact hj
  have hjB : j < (B.getD i []).length := by rw [row_length_of_shape hB hi]; exact hj
  unfold entry
  rw [hrow]
  exact zipWith_getD_of_lt f 0 0 0 _ _ j hjA hjB

theorem entry_mapRows (g : ℚ → ℚ) {A : Mat} {m n i j : Nat}
    (hA : HasShape A m n) (hi : i < m) (hj : j < n) :
    entry (A.map (List.map g)) i j = g (entry A i j) := by
  have hiA : i < A.length := by rw [hA.1]; exact hi
  have hjA : j < (A.getD i []).length := by rw [row_length_of_shape hA hi]; exact hj
  unfold entry
  rw [map_getD_of_lt (List.map g) [] [] A i hiA]
  exact map_getD_of_lt g 0 0 _ j hjA

theorem transposeM_shape {A : Mat} {m n : Nat}
    (hA : HasShape A m n) (hm : 0 < m) : HasShape (transposeM A) n m := by
  refine ⟨?_, ?_⟩
  · rw [transposeM, List.length_map, List.length_range]
    exact headD_length_of_shape hA hm
  · intro r hr
    simp only [transposeM, List.mem_map] at hr
    rcases hr with ⟨j, _, rfl⟩
    simp [colOf, hA.1]

theorem map_zero_replicate (l : List ℚ) :
    l.map (fun _ => (0 : ℚ)) = List.replicate l.length 0 := by
  induction l with
  | nil => rfl
  | cons a u ih => simp [List.replicate_succ, ih]

theorem zerosLike_of_shape {A : Mat} {m n : Nat} (hA : HasShape A m n) :
    zerosLike A = List.replicate m (List.replicate n (0 : ℚ)) := by
  rcases hA with ⟨hlen, hrows⟩
  subst hlen
  induction A with
  | nil => rfl
  | cons r t ih =>
    have hr : r.length = n := hrows r (List.mem_cons_self ..)
    simp only [zerosLike, List.map_cons, List.length_cons, List.replicate_succ]
    rw [map_zero_replicate, hr]
    exact congrArg _ (ih (fun r hr => hrows r (List.mem_cons_of_mem _ hr)))

theorem backwardGrads_shape (s : TrainState) {N Din H Dout : Nat}
    (hx : HasShape s.x N Din) (hy : HasShape s.y N Dout)
    (hw1 : HasShape s.w1 Din H) (hw2 : HasShape s.w2 H Dout)
    (hN : 0 < N) (hDin : 0 < Din) (hH : 0 < H) (hDout : 0 < Dout) :
    HasShape (backwardGrads s).1 Din H ∧ HasShape (backwardGrads s).2 H Dout := by
  have hh : HasShape (mm s.x s.w1) N H := mm_shape hx hw1 hDin
  have hhRelu : HasShape (reluM (mm s.x s.w1)) N H := reluM_shape hh
  have hyPred : HasShape (mm (reluM (mm s.x s.w1)) s.w2) N Dout := mm_shape hhRelu hw2 hH
  have hgYP : HasShape (matScale 2 (matSub (mm (reluM (mm s.x s.w1)) s.w2) s.y)) N Dout :=
    matScale_shape 2 (map2_shape _ hyPred hy)
  have hgW2 : HasShape (mm (transposeM (reluM (mm s.x s.w1)))
      (matScale 2 (matSub (mm (reluM (mm s.x s.w1)) s.w2) s.y))) H Dout :=
    mm_shape (transposeM_shape hhRelu hN) hgYP hN
  have hgHR : HasShape (mm (matScale 2 (matSub (mm (reluM (mm s.x s.w1)) s.w2) s.y))
      (transposeM s.w2)) N H :=
    mm_shape hgYP (transposeM_shape hw2 hH) hDout
  have hgH : HasShape (reluMaskM (mm s.x s.w1)
      (mm (matScale 2 (matSub (mm (reluM (mm s.x s.w1)) s.w2) s.y)) (transposeM s.w2))) N H :=
    map2_shape _ hh hgHR
  have hgW1 : HasShape (mm (transposeM s.x) (reluMaskM (mm s.x s.w1)
      (mm (matScale 2 (matSub (mm (reluM (mm s.x s.w1)) s.w2) s.y)) (transposeM s.w2)))) Din H :=
    mm_shape (transposeM_shape hx hN) hgH hN
  exact ⟨hgW1, hgW2⟩

theorem entry_matSub {A B : Mat} {m n i j : Nat}
    (hA : HasShape A m n) (hB : HasShape B m n) (hi : i < m) (hj : j < n) :
    entry (matSub A B) i j = entry A i j - entry B i j :=
  entry_map2 (fun a b => a - b) hA hB hi hj

theorem entry_matScale (c : ℚ) {A : Mat} {m n i j : Nat}
    (hA : HasShape A m n) (hi : i < m) (hj : j < n) :
    entry (matScale c A) i j = c * entry A i j :=
  entry_mapRows (fun v => c * v) hA hi hj

-- A concrete 1-dimensional training state used to instantiate the loop
-- theorems: x = [[1]], y = [[0]], w1 = [[1]], w2 = [[1]], zero accumulators.
def demoState : TrainState :=
  { x := [[(1 : ℚ)]], y := [[(0 : ℚ)]], w1 := [[(1 : ℚ)]], w2 := [[(1 : ℚ)]],
    w1grad := [[(0 : ℚ)]], w2grad := [[(0 : ℚ)]] }

/-! ### Claims about the loop -/

/-- Claim C3: in every iteration, immediately after the gradient-zeroing step,
each weight's gradient accumulator (`w1.grad`, `w2.grad`) equals a zero-filled
matrix of the same shape as the corresponding weight, so the accumulator is
cleared before the next forward/backward pass begins. -/
theorem step_grad_reset (s : TrainState) {N Din H Dout : Nat}
    (hx : HasShape s.x N Din) (hy : HasShape s.y N Dout)
    (hw1 : HasShape s.w1 Din H) (hw2 : HasShape s.w2 H Dout)
    (hg1 : HasShape s.w1grad Din H) (hg2 : HasShape s.w2grad H Dout)
    (hN : 0 < N) (hDin : 0 < Din) (hH : 0 < H) (hDout : 0 < Dout) :
    ((step s).w1grad = List.replicate Din (List.replicate H (0 : ℚ)) ∧
     HasShape (step s).w1 Din H) ∧
    ((step s).w2grad = List.replicate H (List.replicate Dout (0 : ℚ)) ∧
     HasShape (step s).w2 H Dout) := by
  obtain ⟨hbg1, hbg2⟩ := backwardGrads_shape s hx hy hw1 hw2 hN hDin hH hDout
  have hacc1 : HasShape (matAdd s.w1grad (backwardGrads s).1) Din H :=
    map2_shape _ hg1 hbg1
  have hacc2 : HasShape (matAdd s.w2grad (backwardGrads s).2) H Dout :=
    map2_shape _ hg2 hbg2
  exact ⟨⟨zerosLike_of_shape hacc1, map2_shape _ hw1 (matScale_shape _ hacc1)⟩,
         ⟨zerosLike_of_shape hacc2, map2_shape _ hw2 (matScale_shape _ hacc2)⟩⟩

/-- Witness for C3 on the concrete 1-dimensional state `demoState`. -/
theorem step_grad_reset_witness :
    (HasShape demoState.x 1 1 ∧ HasShape demoState.y 1 1 ∧
     HasShape demoState.w1 1 1 ∧ HasShape demoState.w2 1 1 ∧
     HasShape demoState.w1grad 1 1 ∧ HasShape demoState.w2grad 1 1 ∧
     (0 : Nat) < 1) ∧
    (((step demoState).w1grad = List.replicate 1 (List.replicate 1 (0 : ℚ)) ∧
      HasShape (step demoState).w1 1 1) ∧
     ((step demoState).w2grad = List.replicate 1 (List.replicate 1 (0 : ℚ)) ∧
      HasShape (step demoState).w2 1 1)) :=
  ⟨⟨by decide, by decide, by decide, by decide, by decide, by decide, by decide⟩,
   @step_grad_reset demoState 1 1 1 1 (by decide) (by decide) (by decide) (by decide)
    (by decide) (by decide) (by decide) (by decide) (by decide) (by decide)⟩

/-- Claim C4: in every iteration each weight is updated by
`new_weight = old_weight - learning_rate * gradient_accumulator` with
`learning_rate = 1e-6` (the mutation sits in the `torch.no_grad()` scope, so
the gradients entering the update are those accumulated by `loss.backward()`
from the forward pass only, as modelled by `backwardGrads`). -/
theorem step_update_rule (s : TrainState) {N Din H Dout : Nat}
    (hx : HasShape s.x N Din) (hy : HasShape s.y N Dout)
    (hw1 : HasShape s.w1 Din H) (hw2 : HasShape s.w2 H Dout)
    (hg1 : HasShape s.w1grad Din H) (hg2 : HasShape s.w2grad H Dout)
    (hN : 0 < N) (hDin : 0 < Din) (hH : 0 < H) (hDout : 0 < Dout) :
    (∀ i j, i < Din → j < H →
        entry (step s).w1 i j =
          entry s.w1 i j -
            learning_rate * entry (matAdd s.w1grad (backwardGrads s).1) i j) ∧
    (∀ i j, i < H → j < Dout →
        entry (step s).w2 i j =
          entry s.w2 i j -
            learning_rate * entry (matAdd s.w2grad (backwardGrads s).2) i j) ∧
    learning_rate = 1 / 1000000 := by
  obtain ⟨hbg1, hbg2⟩ := backwardGrads_shape s hx hy hw1 hw2 hN hDin hH hDout
  have hacc1 : HasShape (matAdd s.w1grad (backwardGrads s).1) Din H :=
    map2_shape _ hg1 hbg1
  have hacc2 : HasShape (matAdd s.w2grad (backwardGrads s).2) H Dout :=
    map2_shape _ hg2 hbg2
  refine ⟨?_, ?_, rfl⟩
  · intro i j hi hj
    show entry (matSub s.w1
        (matScale learning_rate (matAdd s.w1grad (backwardGrads s).1))) i j = _
    rw [entry_matSub hw1 (matScale_shape learning_rate hacc1) hi hj,
        entry_matScale learning_rate hacc1 hi hj]
  · intro i j hi hj
    show entry (matSub s.w2
        (matScale learning_rate (matAdd s.w2grad (backwardGrads s).2))) i j = _
    rw [entry_matSub hw2 (matScale_shape learning_rate hacc2) hi hj,
        entry_matScale learning_rate hacc2 hi hj]

/-- Witness for C4 on the concrete 1-dimensional state `demoState`. -/
theorem step_update_rule_witness :
    (HasShape demoState.x 1 1 ∧ HasShape demoState.y 1 1 ∧
     HasShape demoState.w1 1 1 ∧ HasShape demoState.w2 1 1 ∧
     HasShape demoState.w1grad 1 1 ∧ HasShape demoState.w2grad 1 1 ∧
     (0 : Nat) < 1) ∧
    ((∀ i j, i < 1 → j < 1 →
        entry (step demoState).w1 i j =
          entry demoState.w1 i j -
            learning_rate *
              entry (matAdd demoState.w1grad (backwardGrads demoState).1) i j) ∧
     (∀ i j, i < 1 → j < 1 →
        entry (step demoState).w2 i j =
          entry demoState.w2 i j -
            learning_rate *
              entry (matAdd demoState.w2grad (backwardGrads demoState).2) i j) ∧
     learning_rate = 1 / 1000000) :=
  ⟨⟨by decide, by decide, by decide, by decide, by decide, by decide, by decide⟩,
   @step_update_rule demoState 1 1 1 1 (by decide) (by decide) (by decide) (by decide)
    (by decide) (by decide) (by decide) (by decide) (by decide) (by decide)⟩

theorem run_x_y : ∀ (n : Nat) (s : TrainState),
    (run n s).x = s.x ∧ (run n s).y = s.y := by
  intro n
  induction n with
  | zero => intro s; exact ⟨rfl, rfl⟩
  | succ k ih => intro s; exact ih (step s)

/-- Claim C7: the input batch `x` and target batch `y` are never mutated by
any iteration of the training loop: after any number `t ≤ 500` of iterations
they hold their initial values; only the weights (with their gradient
accumulators) are written. -/
theorem trainLoop_frame (s : TrainState) (t : Nat) (ht : t ≤ 500) :
    (run t s).x = s.x ∧ (run t s).y = s.y ∧ trainLoop s = run 500 s :=
  ⟨(run_x_y t s).1, (run_x_y t s).2, rfl⟩

/-- Witness for C7 after all 500 iterations on the state `demoState`. -/
theorem trainLoop_frame_witness :
    (500 ≤ 500) ∧
    ((run 500 demoState).x = demoState.x ∧ (run 500 demoState).y = demoState.y ∧
     trainLoop demoState = run 500 demoState) :=
  ⟨by decide, trainLoop_frame demoState 500 (by decide)⟩

theorem trainTrace_length : ∀ (n : Nat) (s : TrainState),
    (trainTrace n s).length = n := by
  intro n
  induction n with
  | zero => intro s; rfl
  | succ k ih => intro s; simpa [trainTrace] using ih (step s)

/-- Claim C8: the training loop executes exactly 500 iterations and then
terminates — one loss value is printed per iteration, 500 in total, and the
iteration count does not depend on the state (no convergence check, no early
stopping, no loss threshold). -/
theorem trainLoop_iteration_count (s : TrainState) :
    (trainLosses s).length = 500 ∧ trainLoop s = run 500 s :=
  ⟨trainTrace_length 500 s, rfl⟩
